import Mathlib

/-!
Verification development for the AWS pricing normalization engine
(`awspricingfull.py`): a shallow embedding of the feed-repair unit, the
price-token parser, the region / instance-type resolvers and the
per-service normalizer folds, together with theorems settling the frozen
claims about them.

Python floats are modelled as exact rationals (`ℚ`); every claim checked
here only involves decimal values on which IEEE doubles and exact
rationals agree (e.g. `730.0 / 730 == 1.0`).  Fallible Python code
(uncaught `KeyError` / `TypeError`) is modelled with `Option`, `none`
standing for the raised exception.
-/

set_option maxRecDepth 10000

namespace AwsPricing

/-! ### Price token parser

Embeds `float(re.sub("[^0-9\.]", "", token))` under `try/except
ValueError` (identical in every normalizer; the bare `except` of the
on-demand paths behaves the same on string tokens, where `float` can
only raise `ValueError`). -/

/-- The characters kept by `re.sub("[^0-9\.]", "", ·)`. -/
def isPriceChar (c : Char) : Bool := c.isDigit || c = '.'

/-- `re.sub("[^0-9\.]", "", token)`: drop every character that is not a
digit or a decimal point. -/
def stripToken (s : String) : String := String.mk (s.data.filter isPriceChar)

/-- Value of a digit string read in base 10. -/
def digitsVal (l : List Char) : ℕ := l.foldl (fun n c => 10 * n + (c.toNat - 48)) 0

/-- Value of the fractional digit string `l` (the part after the point). -/
def fracVal (l : List Char) : ℚ := l.foldr (fun c q => (q + (c.toNat - 48)) / 10) 0

/-- Not a decimal point. -/
def nePoint (c : Char) : Bool := c != '.'

/-- Python's `float()` on a string of digits and points: at most one
point and at least one digit, otherwise `ValueError` (here `none`). -/
def pyFloatDigits (l : List Char) : Option ℚ :=
  let ip := l.takeWhile nePoint
  if ¬ ip.all Char.isDigit then none
  else
    match l.dropWhile nePoint with
    | [] => if ip = [] then none else some (digitsVal ip)
    | _ :: fp =>
      if '.' ∈ fp ∨ ¬ fp.all Char.isDigit then none
      else if ip = [] ∧ fp = [] then none
      else some ((digitsVal ip : ℚ) + fracVal fp)

/-- The price token parser: strip the noise, then parse; `none` exactly
when Python's `float` raises `ValueError` (caught, yielding `None`). -/
def parse_price (tok : String) : Option ℚ := pyFloatDigits (stripToken tok).data

/-! ### `none_as_string` and Python truthiness -/

/-- The Python values that reach `none_as_string` in the CSV/table
writers: `None`, a float, or a string. -/
inductive PyVal where
  | null : PyVal
  | num : ℚ → PyVal
  | str : String → PyVal
  deriving DecidableEq

/-- Python truthiness on those values (`not v` in the source). -/
def pyTruthy : PyVal → Bool
  | .null => false
  | .num q => decide (q ≠ 0)
  | .str s => decide (s ≠ "")

/-- `AWSPrices.none_as_string`: `"" if not v else v`. -/
def none_as_string (v : PyVal) : PyVal :=
  if pyTruthy v then v else .str ""

/-! ### Static lookup tables and resolvers -/

/-- Association-list lookup, first match wins (the embedded dict
literals bind each key once, so this is Python's `d[k]` when it hits,
and a `KeyError` — `none` — when it misses). -/
def tblLookup {α : Type} : List (String × α) → String → Option α
  | [], _ => none
  | (k, v) :: rest, key => if k = key then some v else tblLookup rest key

/-- Update the first binding of a key, leaving the list unchanged when
the key is absent (only ever used on present keys). -/
def tblUpdate {α : Type} : List (String × α) → String → α → List (String × α)
  | [], _, _ => []
  | (k, v) :: rest, key, w => if k = key then (k, w) :: rest else (k, v) :: tblUpdate rest key w

/-- `AWSPrices.JSON_NAME_TO_REGIONS_API`. -/
def JSON_NAME_TO_REGIONS_API : List (String × String) :=
  [("us-east", "us-east-1"),
   ("us-east-1", "us-east-1"),
   ("us-west", "us-west-1"),
   ("us-west-1", "us-west-1"),
   ("us-west-2", "us-west-2"),
   ("eu-ireland", "eu-west-1"),
   ("eu-west-1", "eu-west-1"),
   ("apac-sin", "ap-southeast-1"),
   ("ap-southeast-1", "ap-southeast-1"),
   ("ap-southeast-2", "ap-southeast-2"),
   ("apac-syd", "ap-southeast-2"),
   ("apac-tokyo", "ap-northeast-1"),
   ("ap-northeast-1", "ap-northeast-1"),
   ("sa-east-1", "sa-east-1"),
   ("eu-central-1", "eu-central-1"),
   ("us-gov-west-1", "us-gov-west-1"),
   ("eu-frankfurt", "eu-central-1")]

/-- `self.JSON_NAME_TO_REGIONS_API[tok]` (a `KeyError` is `none`). -/
def resolveRegion (tok : String) : Option String :=
  tblLookup JSON_NAME_TO_REGIONS_API tok

/-- `ELCPrices.INSTANCE_TYPE_MAPPING`. -/
def ELC_INSTANCE_TYPE_MAPPING : List (String × String) :=
  [("microInstClass.microInst", "cache.t1.micro"),
   ("sCacheNode.sm", "cache.m1.small"),
   ("sCacheNode.medInst", "cache.m1.medium"),
   ("sCacheNode.lg", "cache.m1.large"),
   ("sCacheNode.xl", "cache.m1.xlarge"),
   ("hiMemCacheClass.xl", "cache.m2.xlarge"),
   ("hiMemCacheClass.xxl", "cache.m2.2xlarge"),
   ("hiMemCacheClass.xxxxl", "cache.m2.4xlarge"),
   ("hiCPUDBInstClass.hiCPUxlDBInst", "cache.c1.xlarge"),
   ("enInstClass2.xl", "cache.m3.xlarge"),
   ("enInstClass2.xxl", "cache.m3.2xlarge"),
   ("mic", "cache.t1.micro"),
   ("sm", "cache.m1.small"),
   ("medInst", "cache.m1.medium"),
   ("lg", "cache.m1.large"),
   ("xl", "cache.m1.xlarge"),
   ("xlHiMem", "cache.m2.xlarge"),
   ("xxlHiMem", "cache.m2.2xlarge"),
   ("xxxxlHiMem", "cache.m2.4xlarge"),
   ("xlHiCPU", "cache.c1.xlarge"),
   ("xlEn", "cache.m3.xlarge"),
   ("xxlEn", "cache.m3.2xlarge")]

/-- `self.INSTANCE_TYPE_MAPPING[size]` of the cache service. -/
def elcResolveType (size : String) : Option String :=
  tblLookup ELC_INSTANCE_TYPE_MAPPING size

/-! ### Source feed documents and the `config.regions` guard -/

/-- The `config` object of one parsed feed payload; `regions = none`
models a missing `regions` key. -/
structure SrcConfig (ρ : Type) where
  regions : Option (List ρ)
  deriving DecidableEq

/-- One parsed feed payload; `config = none` models a missing `config`
key (an empty — falsy — `config` dict is `some ⟨none⟩`). -/
structure SrcDoc (ρ : Type) where
  config : Option (SrcConfig ρ)
  deriving DecidableEq

/-- The region list a normalizer iterates over: embeds the guard
`"config" in data and data["config"] and "regions" in data["config"]
and data["config"]["regions"]` (a failing guard skips the feed, which
is the same as iterating an empty list). -/
def srcRegions {ρ : Type} (d : SrcDoc ρ) : List ρ :=
  match d.config with
  | none => []
  | some c =>
    match c.regions with
    | none => []
    | some rs => if rs.isEmpty then [] else rs

/-- The claim's guard-failure condition: `config` missing or falsy, or
`regions` missing or falsy. -/
def noRegions {ρ : Type} (d : SrcDoc ρ) : Prop :=
  d.config = none ∨ ∃ c, d.config = some c ∧ (c.regions = none ∨ c.regions = some [])

/-! ### Canonical document pieces shared by all services -/

/-- One `RegionPricing` entry: `{"region": ..., "instanceTypes": [...]}`. -/
structure RegionP (α : Type) where
  region : String
  instanceTypes : List α
  deriving DecidableEq

/-- The region names of a document, in order. -/
def regionNames {α : Type} (l : List (RegionP α)) : List String :=
  l.map RegionP.region

/-- Append offerings to the first entry carrying `name` (the entry the
`result_regions_index` points at — index entries are unique). -/
def extendFirst {α : Type} : List (RegionP α) → String → List α → List (RegionP α)
  | [], _, _ => []
  | e :: es, name, offs =>
    if e.region = name then ⟨e.region, e.instanceTypes ++ offs⟩ :: es
    else e :: extendFirst es name offs

/-- The region-indexed accumulation of every reserved normalizer:
`if region_name in result_regions_index: ... else: result_regions.append(...)`. -/
def mergeRegion {α : Type} (acc : List (RegionP α)) (name : String) (offs : List α) :
    List (RegionP α) :=
  if name ∈ regionNames acc then extendFirst acc name offs
  else acc ++ [⟨name, offs⟩]

/-- Process a list of elements in order, stopping at the first raised
exception (the loops append one offering at a time; an exception midway
aborts the call before the document is returned). -/
def optMapM {α β : Type} (f : α → Option β) : List α → Option (List β)
  | [] => some []
  | a :: t => (f a).bind (fun b => (optMapM f t).map (fun bs => b :: bs))

/-- `{"hourly": ..., "upfront": ...}`. -/
structure HU where
  hourly : Option ℚ
  upfront : Option ℚ
  deriving DecidableEq

/-- The two-term prices dict of the legacy 3-tier reserved scheme. -/
structure LegacyPrices where
  y1 : HU
  y3 : HU
  deriving DecidableEq

/-- The legacy prices dict literal: all four cells `None`. -/
def legacyInit : LegacyPrices := ⟨⟨none, none⟩, ⟨none, none⟩⟩

/-- A `valueColumns` element: `{"name": ..., "prices": {"USD": token}}`
(only the `USD` column is ever read). -/
structure ValueCol where
  name : String
  priceUSD : String
  deriving DecidableEq

/-- The nested term → purchase-option → `{hourly, upfront}` dict of the
new reserved scheme. -/
abbrev NewPrices := List (String × List (String × HU))

/-- `prices[t][po]` (both lookups can `KeyError`). -/
def npGet (p : NewPrices) (t po : String) : Option HU :=
  (tblLookup p t).bind (fun m => tblLookup m po)

/-- `prices[t][po][...] = v`: look both keys up (a miss is a raised
`KeyError`, `none`) and rewrite the cell with `f`. -/
def npSet (p : NewPrices) (t po : String) (f : HU → HU) : Option NewPrices :=
  match tblLookup p t with
  | none => none
  | some m =>
    match tblLookup m po with
    | none => none
    | some hu => some (tblUpdate p t (tblUpdate m po (f hu)))

/-- The EC2 reserved prices dict literal: term `"1"` has all three
purchase options, term `"3"` omits `noUpfront`. -/
def ec2InitNewPrices : NewPrices :=
  [("1", [("noUpfront", ⟨none, none⟩), ("partialUpfront", ⟨none, none⟩),
          ("allUpfront", ⟨none, none⟩)]),
   ("3", [("partialUpfront", ⟨none, none⟩), ("allUpfront", ⟨none, none⟩)])]

/-- The RDS new-scheme prices dict literal: both terms carry all three
purchase options. -/
def rdsInitNewPrices : NewPrices :=
  [("1", [("noUpfront", ⟨none, none⟩), ("partialUpfront", ⟨none, none⟩),
          ("allUpfront", ⟨none, none⟩)]),
   ("3", [("noUpfront", ⟨none, none⟩), ("partialUpfront", ⟨none, none⟩),
          ("allUpfront", ⟨none, none⟩)])]

/-- The Redshift reserved prices dict literal (same shape as RDS). -/
def rsInitNewPrices : NewPrices := rdsInitNewPrices

/-- One `valueColumns` step of the new multi-payment-option reserved
scheme — the block that appears verbatim in
`EC2Prices.get_reserved_instances_prices`,
`RDSPrices.get_reserved_instances_prices` (new-scheme urls) and
`RSPrices.get_reserved_instances_prices`: the `upfront` column is stored
unchanged, the `monthlyStar` column divided by `730`; on a `monthlyStar`
column whose token did not parse, Python evaluates `None / 730` — an
uncaught `TypeError`, modelled `none`. -/
def applyNewVC (term po : String) (p : NewPrices) (vc : ValueCol) : Option NewPrices :=
  let price := parse_price vc.priceUSD
  if term = "yrTerm1" then
    if vc.name = "upfront" then npSet p "1" po (fun hu => { hu with upfront := price })
    else if vc.name = "monthlyStar" then
      match price with
      | none => none
      | some q => npSet p "1" po (fun hu => { hu with hourly := some (q / 730) })
    else some p
  else if term = "yrTerm3" then
    if vc.name = "upfront" then npSet p "3" po (fun hu => { hu with upfront := price })
    else if vc.name = "monthlyStar" then
      match price with
      | none => none
      | some q => npSet p "3" po (fun hu => { hu with hourly := some (q / 730) })
    else some p
  else some p

/-- One `valueColumns` step of the cache legacy reserved scheme
(`ELCPrices.get_reserved_instances_prices`): note that only the
`yearTerm1Hourly` / `yearTerm3Hourly` spellings are matched here. -/
def elcApplyLegacyVC (p : LegacyPrices) (vc : ValueCol) : LegacyPrices :=
  let price := parse_price vc.priceUSD
  if vc.name = "yrTerm1" then { p with y1 := { p.y1 with upfront := price } }
  else if vc.name = "yearTerm1Hourly" then { p with y1 := { p.y1 with hourly := price } }
  else if vc.name = "yrTerm3" then { p with y3 := { p.y3 with upfront := price } }
  else if vc.name = "yearTerm3Hourly" then { p with y3 := { p.y3 with hourly := price } }
  else p

/-- One `valueColumns` step of the relational-database legacy reserved
scheme (`RDSPrices.get_reserved_instances_prices`, old-scheme urls):
both the `yrTerm:Hourly` and `yearTerm:Hourly` spellings are matched. -/
def rdsApplyLegacyVC (p : LegacyPrices) (vc : ValueCol) : LegacyPrices :=
  let price := parse_price vc.priceUSD
  if vc.name = "yrTerm1" then { p with y1 := { p.y1 with upfront := price } }
  else if vc.name = "yrTerm1Hourly" then { p with y1 := { p.y1 with hourly := price } }
  else if vc.name = "yearTerm1Hourly" then { p with y1 := { p.y1 with hourly := price } }
  else if vc.name = "yrTerm3" then { p with y3 := { p.y3 with upfront := price } }
  else if vc.name = "yrTerm3Hourly" then { p with y3 := { p.y3 with hourly := price } }
  else if vc.name = "yearTerm3Hourly" then { p with y3 := { p.y3 with hourly := price } }
  else p

/-! ### `EC2Prices`: compute-service normalizer -/

namespace EC2

/-- An on-demand `sizes` element: `{"size": ..., "valueColumns": [...]}`. -/
structure OdSize where
  size : String
  valueColumns : List AwsPricing.ValueCol

/-- An on-demand `instanceTypes` element (its `sizes` key may be absent). -/
structure OdIT where
  sizes : Option (List OdSize)

/-- An on-demand feed `regions` element. -/
structure OdRegion where
  region : Option String
  instanceTypes : Option (List OdIT)

/-- An on-demand instance offering of the compute service. -/
structure OdOffer where
  type : String
  os : String
  price : Option ℚ
  deriving DecidableEq

/-- The compute on-demand canonical document. -/
structure OdDoc where
  currency : String
  unit : String
  regions : List (AwsPricing.RegionP OdOffer)
  deriving DecidableEq

/-- The offerings one `sizes` element contributes: one per value column,
`os` taken from the column name. -/
def odSizeOffers (s : OdSize) : List OdOffer :=
  s.valueColumns.map (fun pd => ⟨s.size, pd.name, AwsPricing.parse_price pd.priceUSD⟩)

/-- The offerings of one region entry of one on-demand feed. -/
def odRegionOffers (its : List OdIT) : List OdOffer :=
  its.flatMap (fun it => (it.sizes.getD []).flatMap odSizeOffers)

/-- One region entry of one on-demand feed: a fresh `RegionPricing` is
appended (inside `if "instanceTypes" in r`), never merged. -/
def odRegionStep (acc : List (AwsPricing.RegionP OdOffer)) (r : OdRegion) :
    List (AwsPricing.RegionP OdOffer) :=
  match r.region with
  | none => acc
  | some tok =>
    if tok = "" then acc
    else
      match r.instanceTypes with
      | none => acc
      | some its => acc ++ [⟨tok, odRegionOffers its⟩]

/-- One on-demand feed (`self.load_data(u)` already applied). -/
def odFeedStep (acc : List (AwsPricing.RegionP OdOffer)) (d : AwsPricing.SrcDoc OdRegion) :
    List (AwsPricing.RegionP OdOffer) :=
  (AwsPricing.srcRegions d).foldl odRegionStep acc

/-- `EC2Prices.get_ondemand_instances_prices`, as a function of the
parsed payloads of its fixed url list. -/
def get_ondemand_instances_prices (feeds : List (AwsPricing.SrcDoc OdRegion)) : OdDoc :=
  ⟨"USD", "perhr", feeds.foldl odFeedStep []⟩

/-- A reserved `purchaseOptions` element. -/
structure ResPO where
  purchaseOption : String
  valueColumns : List AwsPricing.ValueCol

/-- A reserved `terms` element. -/
structure ResTerm where
  term : String
  purchaseOptions : List ResPO

/-- A reserved `instanceTypes` element (its `terms` key may be absent). -/
structure ResIT where
  type : String
  terms : Option (List ResTerm)

/-- A reserved feed `regions` element. -/
structure ResRegion where
  region : Option String
  instanceTypes : Option (List ResIT)

/-- A reserved instance offering of the compute service. -/
structure ResOffer where
  type : String
  os : String
  prices : AwsPricing.NewPrices
  deriving DecidableEq

/-- The compute reserved canonical document. -/
structure ResDoc where
  currency : String
  regions : List (AwsPricing.RegionP ResOffer)
  deriving DecidableEq

/-- Process one reserved `instanceTypes` element: start from the EC2
prices dict literal and fold every value column of every purchase
option of every term over it (the offering dict appended to
`instance_types` holds a reference to `prices`, so it carries the final
cells). -/
def resProcessIT (os : String) (it : ResIT) : Option ResOffer :=
  ((it.terms.getD []).foldlM
    (fun p (t : ResTerm) =>
      t.purchaseOptions.foldlM
        (fun p (po : ResPO) =>
          po.valueColumns.foldlM
            (fun p vc => AwsPricing.applyNewVC t.term po.purchaseOption p vc) p)
        p)
    AwsPricing.ec2InitNewPrices).map (fun p => ⟨it.type, os, p⟩)

/-- One region entry of one reserved feed: the raw `r["region"]` token
keys the service-level region index (no resolver on this path). -/
def resRegionStep (os : String) (acc : List (AwsPricing.RegionP ResOffer)) (r : ResRegion) :
    Option (List (AwsPricing.RegionP ResOffer)) :=
  match r.region with
  | none => some acc
  | some tok =>
    if tok = "" then some acc
    else
      (AwsPricing.optMapM (resProcessIT os) (r.instanceTypes.getD [])).map
        (fun offs => AwsPricing.mergeRegion acc tok offs)

/-- One reserved feed; `os` is `INSTANCES_RESERVED_OS_TYPE_BY_URL[u]`. -/
def resFeedStep (acc : List (AwsPricing.RegionP ResOffer))
    (f : String × AwsPricing.SrcDoc ResRegion) :
    Option (List (AwsPricing.RegionP ResOffer)) :=
  (AwsPricing.srcRegions f.2).foldlM (resRegionStep f.1) acc

/-- `EC2Prices.get_reserved_instances_prices`, as a function of the
parsed payloads of its fixed url list, each paired with its url's OS
tag; `none` models an uncaught exception aborting the call. -/
def get_reserved_instances_prices (feeds : List (String × AwsPricing.SrcDoc ResRegion)) :
    Option ResDoc :=
  (feeds.foldlM resFeedStep []).map (fun regs => ⟨"USD", regs⟩)

end EC2

/-! ### `ELCPrices`: cache-service normalizer -/

namespace ELC

/-- An on-demand `tiers` element: `{"name": ..., "prices": {"USD": ...}}`. -/
structure OdTier where
  name : String
  priceUSD : String
  deriving DecidableEq

/-- An on-demand `types` element (its `tiers` key may be absent). -/
structure OdType where
  tiers : Option (List OdTier)
  deriving DecidableEq

/-- An on-demand feed `regions` element (`types`, not `instanceTypes`). -/
structure OdRegion where
  region : Option String
  types : Option (List OdType)
  deriving DecidableEq

/-- An on-demand instance offering of the cache service. -/
structure OdOffer where
  type : String
  price : Option ℚ
  deriving DecidableEq

/-- The cache on-demand canonical document. -/
structure OdDoc where
  currency : String
  unit : String
  regions : List (AwsPricing.RegionP OdOffer)
  deriving DecidableEq

/-- The offerings of one region entry of one cache on-demand feed: the
raw tier name is kept as the type. -/
def odRegionOffers (tys : List OdType) : List OdOffer :=
  tys.flatMap (fun t =>
    (t.tiers.getD []).map (fun s => ⟨s.name, AwsPricing.parse_price s.priceUSD⟩))

/-- One region entry of one cache on-demand feed: the region token is
resolved first (`KeyError` aborts), then — only when the `types` key is
present — a fresh `RegionPricing` is appended. -/
def odRegionStep (acc : List (AwsPricing.RegionP OdOffer)) (r : OdRegion) :
    Option (List (AwsPricing.RegionP OdOffer)) :=
  match r.region with
  | none => some acc
  | some tok =>
    if tok = "" then some acc
    else
      (AwsPricing.resolveRegion tok).bind (fun name =>
        match r.types with
        | none => some acc
        | some tys => some (acc ++ [⟨name, odRegionOffers tys⟩]))

/-- One cache on-demand feed. -/
def odFeedStep (acc : List (AwsPricing.RegionP OdOffer)) (d : AwsPricing.SrcDoc OdRegion) :
    Option (List (AwsPricing.RegionP OdOffer)) :=
  (AwsPricing.srcRegions d).foldlM odRegionStep acc

/-- `ELCPrices.get_ondemand_instances_prices`, as a function of the
parsed payloads of its two urls. -/
def get_ondemand_instances_prices (feeds : List (AwsPricing.SrcDoc OdRegion)) :
    Option OdDoc :=
  (feeds.foldlM odFeedStep []).map (fun regs => ⟨"USD", "perhr", regs⟩)

/-- A reserved `tiers` element. -/
structure ResTier where
  size : String
  valueColumns : List AwsPricing.ValueCol

/-- A reserved `instanceTypes` element (its `tiers` key may be absent). -/
structure ResIT where
  tiers : Option (List ResTier)

/-- A reserved feed `regions` element. -/
structure ResRegion where
  region : Option String
  instanceTypes : Option (List ResIT)

/-- A reserved instance offering of the cache service. -/
structure ResOffer where
  type : String
  utilization : String
  prices : AwsPricing.LegacyPrices
  deriving DecidableEq

/-- The cache reserved canonical document. -/
structure ResDoc where
  currency : String
  regions : List (AwsPricing.RegionP ResOffer)
  deriving DecidableEq

/-- Per-url context of a cache reserved feed: the utilization tag of
`INSTANCES_RESERVED_UTILIZATION_TYPE_BY_URL`, and whether the url is
one of the two (current-generation light / medium) whose tier sizes go
through `INSTANCE_TYPE_MAPPING`. -/
structure ResCtx where
  utilization : String
  mapTypes : Bool

/-- Process one reserved tier: resolve the size when required
(`KeyError` aborts), then fold the legacy value columns. -/
def resTierOffer (ctx : ResCtx) (s : ResTier) : Option ResOffer :=
  (if ctx.mapTypes then AwsPricing.elcResolveType s.size else some s.size).map
    (fun t => ⟨t, ctx.utilization, s.valueColumns.foldl AwsPricing.elcApplyLegacyVC
      AwsPricing.legacyInit⟩)

/-- One region entry of one cache reserved feed: the resolved region id
keys the service-level region index (an entry is created even when the
`instanceTypes` key is absent). -/
def resRegionStep (ctx : ResCtx) (acc : List (AwsPricing.RegionP ResOffer)) (r : ResRegion) :
    Option (List (AwsPricing.RegionP ResOffer)) :=
  match r.region with
  | none => some acc
  | some tok =>
    if tok = "" then some acc
    else
      (AwsPricing.resolveRegion tok).bind (fun name =>
        (AwsPricing.optMapM (resTierOffer ctx)
            ((r.instanceTypes.getD []).flatMap (fun it => it.tiers.getD []))).map
          (fun offs => AwsPricing.mergeRegion acc name offs))

/-- One cache reserved feed. -/
def resFeedStep (acc : List (AwsPricing.RegionP ResOffer))
    (f : ResCtx × AwsPricing.SrcDoc ResRegion) :
    Option (List (AwsPricing.RegionP ResOffer)) :=
  (AwsPricing.srcRegions f.2).foldlM (resRegionStep f.1) acc

/-- `ELCPrices.get_reserved_instances_prices`, as a function of the
parsed payloads of its six urls, each paired with its url's context. -/
def get_reserved_instances_prices (feeds : List (ResCtx × AwsPricing.SrcDoc ResRegion)) :
    Option ResDoc :=
  (feeds.foldlM resFeedStep []).map (fun regs => ⟨"USD", regs⟩)

end ELC

/-! ### Feed repair unit (`AWSPrices.load_data`)

The five `re.sub` rewrites, in source order, modelled on `List Char`.
The comment rewrite `re.sub("/\*[^\x00]+\*/", "", f)` is modelled for
payloads without NUL bytes (real payloads never contain one): the
greedy `+` makes Python match from the first `/*` through the last
`*/`, provided at least one character lies between them. -/

/-- Index of the first occurrence of `p` in `l`, if any. -/
def findSub : List Char → List Char → Option ℕ
  | [], p => if p.isEmpty then some 0 else none
  | c :: rest, p =>
    if p.isPrefixOf (c :: rest) then some 0 else (findSub rest p).map (· + 1)

/-- Index of the last occurrence of `p` in `l`, if any. -/
def findLastSub (l p : List Char) : Option ℕ :=
  (findSub l.reverse p.reverse).map (fun i => l.length - i - p.length)

/-- `re.sub("/\*[^\x00]+\*/", "", f)` on NUL-free text: one greedy
match from the first `/*` to the last `*/` (needing one character in
between); nothing is left for a further match, so a single removal. -/
def stripComments (l : List Char) : List Char :=
  match findSub l ['/', '*'] with
  | none => l
  | some i =>
    match findLastSub l ['*', '/'] with
    | none => l
    | some j => if i + 3 ≤ j then l.take i ++ l.drop (j + 2) else l

/-- `[a-zA-Z0-9]`. -/
def isAlnumAscii (c : Char) : Bool := c.isAlpha || c.isDigit

/-- Worker for `quoteKeys`: `pend` is the alphanumeric run read so far
(a maximal run followed by `:` is a key occurrence of
`([a-zA-Z0-9]+):`, wrapped in quotes; any other run is copied). -/
def qk : List Char → List Char → List Char
  | pend, [] => pend
  | pend, c :: rest =>
    if c = ':' then
      if pend.isEmpty then ':' :: qk [] rest
      else '"' :: (pend ++ '"' :: ':' :: qk [] rest)
    else if isAlnumAscii c then qk (pend ++ [c]) rest
    else pend ++ c :: qk [] rest

/-- `re.sub("([a-zA-Z0-9]+):", "\"\1\":", f)`: quote bare keys. -/
def quoteKeys (l : List Char) : List Char := qk [] l

/-- `re.sub(";", "\n", f)`. -/
def semiToNl (l : List Char) : List Char :=
  l.map (fun c => if c = ';' then '\n' else c)

/-- The literal pattern of `re.sub("callback\(", "", f)`. -/
def callbackPat : List Char := ['c', 'a', 'l', 'l', 'b', 'a', 'c', 'k', '(']

/-- Fueled worker removing every occurrence of `callback(`. -/
def stripCallbackF : ℕ → List Char → List Char
  | 0, l => l
  | _ + 1, [] => []
  | f + 1, c :: rest =>
    if callbackPat.isPrefixOf (c :: rest) then stripCallbackF f (rest.drop 8)
    else c :: stripCallbackF f rest

/-- `re.sub("callback\(", "", f)`. -/
def stripCallback (l : List Char) : List Char := stripCallbackF l.length l

/-- `re.sub("\)$", "", f)`: `$` matches at the end or just before a
trailing newline. -/
def stripParenEnd (l : List Char) : List Char :=
  match l.reverse with
  | ')' :: rest => rest.reverse
  | '\n' :: ')' :: rest => rest.reverse ++ ['\n']
  | _ => l

/-- The full rewrite sequence of `AWSPrices.load_data` before
`json.loads`. -/
def repairChars (l : List Char) : List Char :=
  stripParenEnd (stripCallback (semiToNl (quoteKeys (stripComments l))))

/-- `load_data`'s repaired text, as a string. -/
def load_repair (s : String) : String := String.mk (repairChars s.data)

/-! ### `json.loads` (the fragment the feeds use: objects, arrays,
strings without escapes, plain decimal numbers, literals) -/

/-- A parsed JSON value. -/
inductive JVal where
  | jnull : JVal
  | jbool : Bool → JVal
  | jstr : String → JVal
  | jnum : ℚ → JVal
  | jarr : List JVal → JVal
  | jobj : List (String × JVal) → JVal

/-- JSON whitespace. -/
def jSkipWs (l : List Char) : List Char :=
  l.dropWhile (fun c => c = ' ' || c = '\n' || c = '\t' || c = '\r')

/-- Body of a string literal up to its closing quote (escape sequences
are outside the modelled fragment). -/
def jStrBody : List Char → Option (List Char × List Char)
  | [] => none
  | '"' :: rest => some ([], rest)
  | '\\' :: _ => none
  | c :: rest => (jStrBody rest).map (fun p => (c :: p.1, p.2))

/-- A plain decimal number (exponents outside the modelled fragment). -/
def jNum (l : List Char) : Option (ℚ × List Char) :=
  let neg := match l with | '-' :: _ => true | _ => false
  let l' := if neg then l.drop 1 else l
  let ds := l'.takeWhile Char.isDigit
  let rest := l'.dropWhile Char.isDigit
  if ds.isEmpty then none
  else
    match rest with
    | '.' :: r2 =>
      let fs := r2.takeWhile Char.isDigit
      if fs.isEmpty then none
      else
        let v := (digitsVal ds : ℚ) + fracVal fs
        some (if neg then -v else v, r2.dropWhile Char.isDigit)
    | 'e' :: _ => none
    | 'E' :: _ => none
    | _ => some (if neg then -(digitsVal ds : ℚ) else (digitsVal ds : ℚ), rest)

mutual

/-- Parse one JSON value, returning it with the unconsumed rest. -/
def jParse : ℕ → List Char → Option (JVal × List Char)
  | 0, _ => none
  | f + 1, l =>
    match jSkipWs l with
    | '{' :: rest =>
      match jSkipWs rest with
      | '}' :: r2 => some (.jobj [], r2)
      | _ => (jMembers f rest).map (fun p => (.jobj p.1, p.2))
    | '[' :: rest =>
      match jSkipWs rest with
      | ']' :: r2 => some (.jarr [], r2)
      | _ => (jElems f rest).map (fun p => (.jarr p.1, p.2))
    | '"' :: rest => (jStrBody rest).map (fun p => (.jstr (String.mk p.1), p.2))
    | 'n' :: 'u' :: 'l' :: 'l' :: rest => some (.jnull, rest)
    | 't' :: 'r' :: 'u' :: 'e' :: rest => some (.jbool true, rest)
    | 'f' :: 'a' :: 'l' :: 's' :: 'e' :: rest => some (.jbool false, rest)
    | l' => (jNum l').map (fun p => (.jnum p.1, p.2))

/-- Parse the members of an object after its `{`. -/
def jMembers : ℕ → List Char → Option (List (String × JVal) × List Char)
  | 0, _ => none
  | f + 1, l =>
    match jSkipWs l with
    | '"' :: rest =>
      match jStrBody rest with
      | none => none
      | some (k, r1) =>
        match jSkipWs r1 with
        | ':' :: r2 =>
          match jParse f r2 with
          | none => none
          | some (v, r3) =>
            match jSkipWs r3 with
            | ',' :: r4 => (jMembers f r4).map (fun p => ((String.mk k, v) :: p.1, p.2))
            | '}' :: r4 => some ([(String.mk k, v)], r4)
            | _ => none
        | _ => none
    | _ => none

/-- Parse the elements of an array after its `[`. -/
def jElems : ℕ → List Char → Option (List JVal × List Char)
  | 0, _ => none
  | f + 1, l =>
    match jParse f l with
    | none => none
    | some (v, r1) =>
      match jSkipWs r1 with
      | ',' :: r2 => (jElems f r2).map (fun p => (v :: p.1, p.2))
      | ']' :: r2 => some ([v], r2)
      | _ => none

end

/-- `json.loads`: one value, nothing but whitespace after it. -/
def jsonParse (s : String) : Option JVal :=
  match jParse (s.length + 1) s.data with
  | some (v, rest) => if (jSkipWs rest).isEmpty then some v else none
  | none => none

/-- `d[k]` on a parsed JSON object (`none` both for a missing key and
for indexing a non-object). -/
def jGet (j : JVal) (k : String) : Option JVal :=
  match j with
  | .jobj ms => tblLookup ms k
  | _ => none

/-! ### From parsed JSON to the cache on-demand feed shape

The dictionary accesses `ELCPrices.get_ondemand_instances_prices`
performs on `json.loads`' result, as a typed decode: required keys
(`name`, `prices`, `USD`) fail the feed when missing — the loop would
raise — while the optional keys tested with `in` decode to `none`. -/

/-- Decode one `tiers` element. -/
def decodeOdTier (j : JVal) : Option ELC.OdTier :=
  match jGet j ("name"), (jGet j ("prices")).bind (fun p => jGet p ("USD")) with
  | some (.jstr n), some (.jstr tok) => some ⟨n, tok⟩
  | _, _ => none

/-- Decode one `types` element. -/
def decodeOdType (j : JVal) : Option ELC.OdType :=
  match jGet j ("tiers") with
  | none => some ⟨none⟩
  | some (.jarr ts) => (ts.mapM decodeOdTier).map (fun l => ⟨some l⟩)
  | some _ => none

/-- Decode one `regions` element. -/
def decodeOdRegion (j : JVal) : Option ELC.OdRegion :=
  let reg : Option (Option String) :=
    match jGet j ("region") with
    | none => some none
    | some (.jstr s) => some (some s)
    | some _ => none
  let tys : Option (Option (List ELC.OdType)) :=
    match jGet j ("types") with
    | none => some none
    | some (.jarr ts) => (ts.mapM decodeOdType).map some
    | some _ => none
  match reg, tys with
  | some r, some t => some ⟨r, t⟩
  | _, _ => none

/-- Decode one parsed payload into the cache on-demand feed shape. -/
def decodeOdDoc (j : JVal) : Option (SrcDoc ELC.OdRegion) :=
  match jGet j ("config") with
  | none => some ⟨none⟩
  | some cj =>
    match jGet cj ("regions") with
    | none => some ⟨some ⟨none⟩⟩
    | some (.jarr rs) => (rs.mapM decodeOdRegion).map (fun l => ⟨some ⟨some l⟩⟩)
    | some _ => none

/-- `AWSPrices.load_data` for a cache on-demand feed: repair the raw
payload, parse it, and read it in the loop's shape (`none` models an
uncaught exception). -/
def load_data_elc_od (raw : String) : Option (SrcDoc ELC.OdRegion) :=
  (jsonParse (load_repair raw)).bind decodeOdDoc

/-! ### Helper lemmas -/

lemma tblLookup_update_self {α : Type} {l : List (String × α)} {k : String} {v : α}
    (w : α) (h : tblLookup l k = some v) : tblLookup (tblUpdate l k w) k = some w := by
  induction l with
  | nil => simp [tblLookup] at h
  | cons kv rest ih =>
    obtain ⟨k', v'⟩ := kv
    by_cases hk : k' = k
    · simp [tblUpdate, tblLookup, hk]
    · simp only [tblLookup, if_neg hk] at h
      simp [tblUpdate, tblLookup, hk, ih h]

lemma tblLookup_eq_none {α : Type} : ∀ {l : List (String × α)} {k : String},
    k ∉ l.map Prod.fst → tblLookup l k = none := by
  intro l
  induction l with
  | nil => intro k _; rfl
  | cons kv rest ih =>
    obtain ⟨k', v'⟩ := kv
    intro k h
    simp only [List.map_cons, List.mem_cons] at h
    push_neg at h
    simp only [tblLookup, if_neg (fun hkk : k' = k => h.1 hkk.symm)]
    exact ih h.2

lemma npSet_spec {p : NewPrices} {t po : String} {hu : HU} (f : HU → HU)
    (h : npGet p t po = some hu) :
    ∃ p', npSet p t po f = some p' ∧ npGet p' t po = some (f hu) := by
  unfold npGet at h
  cases hm : tblLookup p t with
  | none => rw [hm] at h; simp at h
  | some m =>
    rw [hm] at h
    simp only [Option.some_bind] at h
    refine ⟨tblUpdate p t (tblUpdate m po (f hu)), ?_, ?_⟩
    · simp [npSet, hm, h]
    · unfold npGet
      rw [tblLookup_update_self _ hm, Option.some_bind, tblLookup_update_self _ h]

lemma foldlM_none_mem {σ ρ : Type} (f : σ → ρ → Option σ) (x : ρ)
    (hx : ∀ acc, f acc x = none) (l1 l2 : List ρ) :
    ∀ init, (l1 ++ x :: l2).foldlM f init = none := by
  induction l1 with
  | nil => intro init; simp [List.foldlM_cons, hx]
  | cons a t ih =>
    intro init
    rw [List.cons_append, List.foldlM_cons]
    cases h : f init a with
    | none => simp
    | some acc1 => simpa using ih acc1

lemma foldlM_preserve {σ ρ : Type} (P : σ → Prop) (f : σ → ρ → Option σ)
    (hf : ∀ a b a', f a b = some a' → P a → P a') :
    ∀ (l : List ρ) (a a' : σ), l.foldlM f a = some a' → P a → P a' := by
  intro l
  induction l with
  | nil => intro a a' h ha; simp only [List.foldlM_nil] at h; cases h; exact ha
  | cons b t ih =>
    intro a a' h ha
    rw [List.foldlM_cons] at h
    cases hb : f a b with
    | none => rw [hb] at h; simp at h
    | some a1 =>
      rw [hb] at h
      simp only [Option.bind_eq_bind, Option.some_bind] at h
      exact ih a1 a' h (hf a b a1 hb ha)

lemma regionNames_append {α : Type} (l1 l2 : List (RegionP α)) :
    regionNames (l1 ++ l2) = regionNames l1 ++ regionNames l2 :=
  List.map_append _ l1 l2

lemma regionNames_extendFirst {α : Type} (name : String) (offs : List α) :
    ∀ acc : List (RegionP α), regionNames (extendFirst acc name offs) = regionNames acc := by
  intro acc
  induction acc with
  | nil => rfl
  | cons e es ih =>
    by_cases he : e.region = name
    · simp [extendFirst, he, regionNames]
    · simp [extendFirst, he, regionNames]
      simpa [regionNames] using ih

/-- `result_regions`' entry for a region name. -/
def regFind {α : Type} (acc : List (RegionP α)) (name : String) : Option (RegionP α) :=
  acc.find? (fun e => e.region == name)

lemma extendFirst_find {α : Type} (name : String) (offs : List α) :
    ∀ (acc : List (RegionP α)) (e : RegionP α), regFind acc name = some e →
      regFind (extendFirst acc name offs) name = some ⟨name, e.instanceTypes ++ offs⟩ := by
  intro acc
  induction acc with
  | nil => intro e h; simp [regFind] at h
  | cons hd t ih =>
    intro e h
    by_cases hh : hd.region = name
    · simp [regFind, List.find?_cons, hh] at h
      cases h
      simp [extendFirst, hh, regFind, List.find?_cons]
    · simp [regFind, List.find?_cons, hh] at h
      simp [extendFirst, hh, regFind, List.find?_cons]
      exact ih e h

lemma mergeRegion_nodup {α : Type} (acc : List (RegionP α)) (name : String) (offs : List α)
    (h : (regionNames acc).Nodup) : (regionNames (mergeRegion acc name offs)).Nodup := by
  unfold mergeRegion
  by_cases hm : name ∈ regionNames acc
  · rw [if_pos hm, regionNames_extendFirst]; exact h
  · rw [if_neg hm, regionNames_append]
    rw [List.nodup_append]
    refine ⟨h, by simp [regionNames], ?_⟩
    intro a ha hb
    simp [regionNames] at hb
    exact hm (hb ▸ ha)

lemma mergeRegion_names_of_mem {α : Type} {acc : List (RegionP α)} {name : String}
    (offs : List α) (h : name ∈ regionNames acc) :
    regionNames (mergeRegion acc name offs) = regionNames acc := by
  rw [mergeRegion, if_pos h, regionNames_extendFirst]

lemma dropWhile_ne_point {l : List Char} : ∀ {b : Char} {t : List Char},
    l.dropWhile nePoint = b :: t → b = '.' := by
  induction l with
  | nil => intro b t h; simp at h
  | cons c rest ih =>
    intro b t h
    rw [List.dropWhile_cons] at h
    by_cases hc : c = '.'
    · simp [nePoint, hc] at h
      exact h.1.symm
    · simp [nePoint, hc] at h
      exact ih h

lemma count_point_takeWhile (l : List Char) :
    (l.takeWhile nePoint).count '.' = 0 := by
  rw [List.count_eq_zero]
  intro hmem
  have := List.mem_takeWhile_imp hmem
  simp [nePoint] at this

lemma pyFloatDigits_two_points {l : List Char} (h : 2 ≤ l.count '.') :
    pyFloatDigits l = none := by
  unfold pyFloatDigits
  by_cases hall : (l.takeWhile nePoint).all Char.isDigit
  case neg => simp [hall]
  case pos =>
    cases hdrop : l.dropWhile nePoint with
    | nil =>
      exfalso
      have hsplit := List.takeWhile_append_dropWhile nePoint l
      have hz : l.count '.' = 0 := by
        rw [← hsplit, List.count_append, hdrop]
        simp [count_point_takeWhile]
      omega
    | cons b fp =>
      have hfp : 1 ≤ fp.count '.' := by
        have hsplit := List.takeWhile_append_dropWhile nePoint l
        have hc : l.count '.' = fp.count '.' + 1 := by
          rw [← hsplit, List.count_append, hdrop, count_point_takeWhile, List.count_cons]
          simp [dropWhile_ne_point hdrop]
        omega
      have hmem : '.' ∈ fp := List.count_pos_iff.mp (by omega)
      simp [hall, hdrop, hmem]

lemma pyFloatDigits_no_digit {l : List Char} (hp : ∀ c ∈ l, isPriceChar c)
    (hd : ∀ c ∈ l, ¬ c.isDigit) : pyFloatDigits l = none := by
  have hdot : ∀ c ∈ l, c = '.' := by
    intro c hc
    have h1 := hp c hc
    have h2 := hd c hc
    unfold isPriceChar at h1
    rcases Bool.or_eq_true_iff.mp h1 with h | h
    · exact absurd h h2
    · simpa using h
  cases l with
  | nil => decide
  | cons c rest =>
    have hc : c = '.' := hdot c (by simp)
    subst hc
    unfold pyFloatDigits
    simp only [List.takeWhile_cons, List.dropWhile_cons]
    cases rest with
    | nil => simp [nePoint]
    | cons d rest' =>
      have hdd : d = '.' := hdot d (by simp)
      subst hdd
      simp [nePoint]

/-! ### Claim theorems -/

/-- C2 — the price parser strips every character that is not a digit or
a decimal point and parses the remainder: it yields `None` when the
remainder is empty, holds two or more points, or holds no digit (the
cases where Python's `float` raises the caught `ValueError`); it never
propagates an error for any token (the embedding is a total
`Option`-valued function); `"0"` parses to `0.0` — not `None` — while
`"N/A"` parses to `None`, and `"$0.012 per Hrs"` parses to `0.012`. -/
theorem C2_price_token_parse :
    (∀ s : String, stripToken s = "" → parse_price s = none) ∧
    (∀ s : String, 2 ≤ (stripToken s).data.count '.' → parse_price s = none) ∧
    (∀ s : String, (∀ c ∈ (stripToken s).data, ¬ c.isDigit) → parse_price s = none) ∧
    parse_price ("0") = some 0 ∧
    parse_price ("N/A") = none ∧
    parse_price ("$0.012 per Hrs") = some (3 / 250) := by
  refine ⟨?_, ?_, ?_, ?_, by decide, ?_⟩
  · intro s h
    unfold parse_price
    rw [h]
    decide
  · intro s h
    exact pyFloatDigits_two_points h
  · intro s h
    refine pyFloatDigits_no_digit ?_ h
    intro c hc
    have : c ∈ s.data.filter isPriceChar := by simpa [stripToken] using hc
    exact List.of_mem_filter this
  · simp +decide [parse_price, stripToken, pyFloatDigits, isPriceChar, nePoint, digitsVal, fracVal,
      List.filter, List.takeWhile, List.dropWhile]
  · simp +decide [parse_price, stripToken, pyFloatDigits, isPriceChar, nePoint, digitsVal, fracVal,
      List.filter, List.takeWhile, List.dropWhile]
    norm_num

/-- Witness for C2: the malformed remainder `1.2.3` (two points) and
the all-noise token `N/A` both parse to `None`. -/
theorem C2_price_token_parse_witness : parse_price ("1.2.3") = none :=
  C2_price_token_parse.2.1 ("1.2.3") (by decide)

/-- C10 — `none_as_string` blanks every falsy value: `None`, but also
the legitimate price `0.0` and the empty string, so a zero price is
rendered as an empty cell, indistinguishable from a missing price. -/
theorem C10_none_as_string_blanks_zero :
    (∀ v : PyVal, pyTruthy v = false → none_as_string v = .str "") ∧
    none_as_string (.num 0) = .str "" ∧
    none_as_string .null = .str "" ∧
    none_as_string (.num 0) = none_as_string .null := by
  refine ⟨?_, by simp [none_as_string, pyTruthy], by decide, by simp [none_as_string, pyTruthy]⟩
  intro v h
  simp [none_as_string, h]

/-- Witness for C10: the zero price is blanked. -/
theorem C10_witness : none_as_string (.num 0) = .str "" :=
  C10_none_as_string_blanks_zero.1 (.num 0) (by simp [pyTruthy])

/-- C3 — in the new multi-payment-option reserved scheme (the block
shared verbatim by the compute, relational-database and data-warehouse
reserved normalizers, embedded as `applyNewVC`), for every (term,
purchase-option) cell present in the prices dict: the `upfront` column
stores the parsed value unchanged, and the `monthlyStar` column stores
the parsed value divided by exactly `730` as `hourly`; in particular a
parsed `monthlyStar` value of `730` yields `hourly = 1` exactly (and
`"730.0"` parses to `730`). -/
theorem C3_new_scheme_monthly_to_hourly :
    (∀ (po tok : String) (p : NewPrices) (q : ℚ) (hu : HU),
      parse_price tok = some q → npGet p ("1") po = some hu →
      ∃ p', applyNewVC ("yrTerm1") po p ⟨"upfront", tok⟩ = some p' ∧
        npGet p' ("1") po = some ⟨hu.hourly, some q⟩) ∧
    (∀ (po tok : String) (p : NewPrices) (q : ℚ) (hu : HU),
      parse_price tok = some q → npGet p ("1") po = some hu →
      ∃ p', applyNewVC ("yrTerm1") po p ⟨"monthlyStar", tok⟩ = some p' ∧
        npGet p' ("1") po = some ⟨some (q / 730), hu.upfront⟩) ∧
    (∀ (po tok : String) (p : NewPrices) (q : ℚ) (hu : HU),
      parse_price tok = some q → npGet p ("3") po = some hu →
      ∃ p', applyNewVC ("yrTerm3") po p ⟨"upfront", tok⟩ = some p' ∧
        npGet p' ("3") po = some ⟨hu.hourly, some q⟩) ∧
    (∀ (po tok : String) (p : NewPrices) (q : ℚ) (hu : HU),
      parse_price tok = some q → npGet p ("3") po = some hu →
      ∃ p', applyNewVC ("yrTerm3") po p ⟨"monthlyStar", tok⟩ = some p' ∧
        npGet p' ("3") po = some ⟨some (q / 730), hu.upfront⟩) ∧
    (∀ (po tok : String) (p : NewPrices) (hu : HU),
      parse_price tok = some 730 → npGet p ("1") po = some hu →
      ∃ p', applyNewVC ("yrTerm1") po p ⟨"monthlyStar", tok⟩ = some p' ∧
        npGet p' ("1") po = some ⟨some 1, hu.upfront⟩) ∧
    parse_price ("730.0") = some 730 := by
  refine ⟨?_, ?_, ?_, ?_, ?_, ?_⟩
  · intro po tok p q hu hq hget
    obtain ⟨p', h1, h2⟩ := npSet_spec (fun h => { h with upfront := parse_price tok }) hget
    refine ⟨p', by simpa +decide [applyNewVC] using h1, ?_⟩
    rw [h2]
    simp [hq]
  · intro po tok p q hu hq hget
    obtain ⟨p', h1, h2⟩ := npSet_spec (fun h => { h with hourly := some (q / 730) }) hget
    refine ⟨p', ?_, by rw [h2]⟩
    simpa +decide [applyNewVC, hq] using h1
  · intro po tok p q hu hq hget
    obtain ⟨p', h1, h2⟩ := npSet_spec (fun h => { h with upfront := parse_price tok }) hget
    refine ⟨p', by simpa +decide [applyNewVC] using h1, ?_⟩
    rw [h2]
    simp [hq]
  · intro po tok p q hu hq hget
    obtain ⟨p', h1, h2⟩ := npSet_spec (fun h => { h with hourly := some (q / 730) }) hget
    refine ⟨p', ?_, by rw [h2]⟩
    simpa +decide [applyNewVC, hq] using h1
  · intro po tok p hu hq hget
    obtain ⟨p', h1, h2⟩ := npSet_spec (fun h => { h with hourly := some ((730 : ℚ) / 730) }) hget
    refine ⟨p', ?_, ?_⟩
    · simpa +decide [applyNewVC, hq] using h1
    · rw [h2]
      norm_num
  · simp +decide [parse_price, stripToken, pyFloatDigits, isPriceChar, nePoint, digitsVal, fracVal,
      List.filter, List.takeWhile, List.dropWhile]

/-- Witness for C3: on the relational-database prices dict literal, a
`monthlyStar` value column carrying `730` under (`yrTerm1`,
`noUpfront`) stores an hourly price of exactly `1`. -/
theorem C3_witness :
    ∃ p', applyNewVC ("yrTerm1") ("noUpfront") rdsInitNewPrices ⟨"monthlyStar", "730"⟩ = some p' ∧
      npGet p' ("1") ("noUpfront") = some ⟨some 1, none⟩ := by
  have h := C3_new_scheme_monthly_to_hourly.2.2.2.2.1 ("noUpfront") ("730") rdsInitNewPrices
    ⟨none, none⟩ (by simp +decide [parse_price, stripToken, pyFloatDigits, isPriceChar,
      digitsVal, fracVal, List.filter, List.takeWhile, List.dropWhile]) (by decide)
  simpa using h

/-- A cache reserved feed with one tier whose only value column is
named `yrTerm1Hourly` (context: heavy utilization, no type mapping). -/
def c7Feed : ELC.ResCtx × SrcDoc ELC.ResRegion :=
  (⟨"heavy", false⟩,
   ⟨some ⟨some [⟨some "us-east-1",
     some [⟨some [⟨"cache.m1.small", [⟨"yrTerm1Hourly", "5"⟩]⟩]⟩]⟩]⟩⟩)

/-- C7 counterexample: the cache legacy reserved normalizer ignores a
value column named `yrTerm1Hourly` — only the `yearTerm1Hourly`
spelling is matched there — so the offering's `prices["1"]["hourly"]`
stays `None` although the column carried the parseable token `"5"`. -/
theorem C7_counterexample :
    ELC.get_reserved_instances_prices [c7Feed] =
      some ⟨"USD", [⟨"us-east-1", [⟨"cache.m1.small", "heavy", legacyInit⟩]⟩]⟩ ∧
    legacyInit.y1.hourly = none ∧
    parse_price ("5") = some 5 ∧
    (none : Option ℚ) ≠ some 5 := by
  refine ⟨by decide, rfl, ?_, by simp⟩
  simp +decide [parse_price, stripToken, pyFloatDigits, isPriceChar, nePoint, digitsVal,
    fracVal, List.filter, List.takeWhile, List.dropWhile]

/-- C7 amended — the legacy 3-tier column routing as implemented: in
the relational-database normalizer all six names (`yrTerm1`,
`yrTerm1Hourly`, `yearTerm1Hourly`, `yrTerm3`, `yrTerm3Hourly`,
`yearTerm3Hourly`) route to their cells, but in the cache normalizer
only four (`yrTerm1`, `yearTerm1Hourly`, `yrTerm3`,
`yearTerm3Hourly`) do — the `yrTerm:Hourly` spellings are ignored
there; no other column touches the prices mapping in either. -/
theorem C7_amended :
    (∀ (p : LegacyPrices) (tok : String),
      elcApplyLegacyVC p ⟨"yrTerm1", tok⟩ =
        { p with y1 := { p.y1 with upfront := parse_price tok } } ∧
      elcApplyLegacyVC p ⟨"yearTerm1Hourly", tok⟩ =
        { p with y1 := { p.y1 with hourly := parse_price tok } } ∧
      elcApplyLegacyVC p ⟨"yrTerm3", tok⟩ =
        { p with y3 := { p.y3 with upfront := parse_price tok } } ∧
      elcApplyLegacyVC p ⟨"yearTerm3Hourly", tok⟩ =
        { p with y3 := { p.y3 with hourly := parse_price tok } }) ∧
    (∀ (p : LegacyPrices) (vc : ValueCol),
      vc.name ∉ (["yrTerm1", "yearTerm1Hourly", "yrTerm3", "yearTerm3Hourly"] : List String) →
      elcApplyLegacyVC p vc = p) ∧
    (∀ (p : LegacyPrices) (tok : String),
      rdsApplyLegacyVC p ⟨"yrTerm1", tok⟩ =
        { p with y1 := { p.y1 with upfront := parse_price tok } } ∧
      rdsApplyLegacyVC p ⟨"yrTerm1Hourly", tok⟩ =
        { p with y1 := { p.y1 with hourly := parse_price tok } } ∧
      rdsApplyLegacyVC p ⟨"yearTerm1Hourly", tok⟩ =
        { p with y1 := { p.y1 with hourly := parse_price tok } } ∧
      rdsApplyLegacyVC p ⟨"yrTerm3", tok⟩ =
        { p with y3 := { p.y3 with upfront := parse_price tok } } ∧
      rdsApplyLegacyVC p ⟨"yrTerm3Hourly", tok⟩ =
        { p with y3 := { p.y3 with hourly := parse_price tok } } ∧
      rdsApplyLegacyVC p ⟨"yearTerm3Hourly", tok⟩ =
        { p with y3 := { p.y3 with hourly := parse_price tok } }) ∧
    (∀ (p : LegacyPrices) (vc : ValueCol),
      vc.name ∉ (["yrTerm1", "yrTerm1Hourly", "yearTerm1Hourly", "yrTerm3", "yrTerm3Hourly",
        "yearTerm3Hourly"] : List String) →
      rdsApplyLegacyVC p vc = p) := by
  refine ⟨?_, ?_, ?_, ?_⟩
  · intro p tok
    refine ⟨?_, ?_, ?_, ?_⟩ <;> simp +decide [elcApplyLegacyVC]
  · intro p vc h
    simp only [List.mem_cons, List.not_mem_nil, or_false, not_or] at h
    simp [elcApplyLegacyVC, h.1, h.2.1, h.2.2.1, h.2.2.2]
  · intro p tok
    refine ⟨?_, ?_, ?_, ?_, ?_, ?_⟩ <;> simp +decide [rdsApplyLegacyVC]
  · intro p vc h
    simp only [List.mem_cons, List.not_mem_nil, or_false, not_or] at h
    simp [rdsApplyLegacyVC, h.1, h.2.1, h.2.2.1, h.2.2.2.1, h.2.2.2.2.1, h.2.2.2.2.2]

/-- Witness for C7's amended claim: a column with an unmatched name
leaves the legacy prices dict unchanged. -/
theorem C7_amended_witness : rdsApplyLegacyVC legacyInit ⟨"partialUpfront", "5"⟩ = legacyInit :=
  C7_amended.2.2.2 legacyInit ⟨"partialUpfront", "5"⟩ (by decide)

/-- A cache on-demand feed holding one region entry with the given
region token (and an empty `types` list). -/
def elcOdFeedWithRegion (tok : String) : SrcDoc ELC.OdRegion :=
  ⟨some ⟨some [⟨some tok, some []⟩]⟩⟩

/-- A cache reserved feed holding one resolvable region whose single
tier carries the given size token. -/
def elcResFeedWithSize (size : String) : SrcDoc ELC.ResRegion :=
  ⟨some ⟨some [⟨some "us-east-1", some [⟨some [⟨size, []⟩]⟩]⟩]⟩⟩

/-- C6 — resolver totality and fatality: every key of the region table
and of the cache instance-type table resolves to exactly one non-empty
canonical id (the lookup is a function); a token outside a table
resolves to nothing; and a feed carrying an unknown region token — or,
on the mapped reserved path, an unknown size token — aborts the whole
normalizer call with the raised `KeyError` (no fallback, no silent
drop), wherever that feed sits in the url list. -/
theorem C6_resolver_totality :
    (∀ kv ∈ JSON_NAME_TO_REGIONS_API, resolveRegion kv.1 = some kv.2 ∧ kv.2 ≠ "") ∧
    (∀ kv ∈ ELC_INSTANCE_TYPE_MAPPING, elcResolveType kv.1 = some kv.2 ∧ kv.2 ≠ "") ∧
    (∀ tok : String, tok ∉ JSON_NAME_TO_REGIONS_API.map Prod.fst → resolveRegion tok = none) ∧
    (∀ tok : String, tok ∉ ELC_INSTANCE_TYPE_MAPPING.map Prod.fst → elcResolveType tok = none) ∧
    (∀ (pre post : List (SrcDoc ELC.OdRegion)) (tok : String), tok ≠ "" →
      resolveRegion tok = none →
      ELC.get_ondemand_instances_prices (pre ++ elcOdFeedWithRegion tok :: post) = none) ∧
    (∀ (pre post : List (ELC.ResCtx × SrcDoc ELC.ResRegion)) (u size : String),
      elcResolveType size = none →
      ELC.get_reserved_instances_prices
        (pre ++ (⟨u, true⟩, elcResFeedWithSize size) :: post) = none) := by
  refine ⟨by decide, by decide, ?_, ?_, ?_, ?_⟩
  · exact fun tok h => tblLookup_eq_none h
  · exact fun tok h => tblLookup_eq_none h
  · intro pre post tok htok hres
    have hx : ∀ acc, ELC.odFeedStep acc (elcOdFeedWithRegion tok) = none := by
      intro acc
      simp [ELC.odFeedStep, elcOdFeedWithRegion, srcRegions, List.foldlM_cons,
        ELC.odRegionStep, htok, hres]
    unfold ELC.get_ondemand_instances_prices
    rw [foldlM_none_mem ELC.odFeedStep (elcOdFeedWithRegion tok) hx pre post]
    rfl
  · intro pre post u size hres
    have hx : ∀ acc, ELC.resFeedStep acc (⟨u, true⟩, elcResFeedWithSize size) = none := by
      intro acc
      simp +decide [ELC.resFeedStep, elcResFeedWithSize, srcRegions, List.foldlM_cons,
        ELC.resRegionStep, resolveRegion, JSON_NAME_TO_REGIONS_API, tblLookup,
        ELC.resTierOffer, optMapM, hres]
    unfold ELC.get_reserved_instances_prices
    rw [foldlM_none_mem ELC.resFeedStep (⟨u, true⟩, elcResFeedWithSize size) hx pre post]
    rfl

/-- Witness for C6: a token outside the region table is fatal for the
cache on-demand call. -/
theorem C6_witness :
    ELC.get_ondemand_instances_prices [elcOdFeedWithRegion ("atlantis")] = none :=
  C6_resolver_totality.2.2.2.2.1 [] [] ("atlantis") (by decide) (by decide)

lemma srcRegions_eq_nil {ρ : Type} {d : SrcDoc ρ} (h : noRegions d) : srcRegions d = [] := by
  rcases h with h | ⟨c, hc, h2⟩
  · simp [srcRegions, h]
  · rcases h2 with h2 | h2 <;> simp [srcRegions, hc, h2]

/-- C8 — a feed whose repaired payload lacks a non-empty
`config.regions` (the `config` key missing or falsy, or the `regions`
key missing or falsy) is an empty contribution: dropping it from the
feed list leaves the produced document — and the success of the call —
unchanged, wherever it sits among the other feeds. -/
theorem C8_empty_feed_contribution :
    (∀ (pre post : List (SrcDoc EC2.OdRegion)) (d : SrcDoc EC2.OdRegion), noRegions d →
      EC2.get_ondemand_instances_prices (pre ++ d :: post) =
        EC2.get_ondemand_instances_prices (pre ++ post)) ∧
    (∀ (pre post : List (String × SrcDoc EC2.ResRegion)) (os : String)
      (d : SrcDoc EC2.ResRegion), noRegions d →
      EC2.get_reserved_instances_prices (pre ++ (os, d) :: post) =
        EC2.get_reserved_instances_prices (pre ++ post)) ∧
    (∀ (pre post : List (SrcDoc ELC.OdRegion)) (d : SrcDoc ELC.OdRegion), noRegions d →
      ELC.get_ondemand_instances_prices (pre ++ d :: post) =
        ELC.get_ondemand_instances_prices (pre ++ post)) ∧
    (∀ (pre post : List (ELC.ResCtx × SrcDoc ELC.ResRegion)) (ctx : ELC.ResCtx)
      (d : SrcDoc ELC.ResRegion), noRegions d →
      ELC.get_reserved_instances_prices (pre ++ (ctx, d) :: post) =
        ELC.get_reserved_instances_prices (pre ++ post)) := by
  refine ⟨?_, ?_, ?_, ?_⟩
  · intro pre post d h
    unfold EC2.get_ondemand_instances_prices
    rw [List.foldl_append, List.foldl_append, List.foldl_cons]
    have : EC2.odFeedStep (pre.foldl EC2.odFeedStep []) d = pre.foldl EC2.odFeedStep [] := by
      simp [EC2.odFeedStep, srcRegions_eq_nil h]
    rw [this]
  · intro pre post os d h
    unfold EC2.get_reserved_instances_prices
    rw [List.foldlM_append, List.foldlM_append]
    cases hpre : pre.foldlM EC2.resFeedStep [] with
    | none => simp
    | some b =>
      simp only [Option.bind_eq_bind, Option.some_bind]
      rw [List.foldlM_cons]
      have : EC2.resFeedStep b (os, d) = some b := by
        simp [EC2.resFeedStep, srcRegions_eq_nil h]
      rw [this]
      simp
  · intro pre post d h
    unfold ELC.get_ondemand_instances_prices
    rw [List.foldlM_append, List.foldlM_append]
    cases hpre : pre.foldlM ELC.odFeedStep [] with
    | none => simp
    | some b =>
      simp only [Option.bind_eq_bind, Option.some_bind]
      rw [List.foldlM_cons]
      have : ELC.odFeedStep b d = some b := by
        simp [ELC.odFeedStep, srcRegions_eq_nil h]
      rw [this]
      simp
  · intro pre post ctx d h
    unfold ELC.get_reserved_instances_prices
    rw [List.foldlM_append, List.foldlM_append]
    cases hpre : pre.foldlM ELC.resFeedStep [] with
    | none => simp
    | some b =>
      simp only [Option.bind_eq_bind, Option.some_bind]
      rw [List.foldlM_cons]
      have : ELC.resFeedStep b (ctx, d) = some b := by
        simp [ELC.resFeedStep, srcRegions_eq_nil h]
      rw [this]
      simp

/-- Witness for C8: a payload with no `config` key contributes nothing
to the compute on-demand document. -/
theorem C8_witness :
    EC2.get_ondemand_instances_prices [⟨none⟩] = EC2.get_ondemand_instances_prices [] :=
  C8_empty_feed_contribution.1 [] [] ⟨none⟩ (Or.inl rfl)

lemma findSub_some_isInfix : ∀ (l p : List Char) (i : ℕ), findSub l p = some i → p <:+: l := by
  intro l
  induction l with
  | nil =>
    intro p i h
    unfold findSub at h
    by_cases hp : p.isEmpty
    · simp only [List.isEmpty_iff] at hp
      simp [hp]
    · simp [hp] at h
  | cons c rest ih =>
    intro p i h
    unfold findSub at h
    by_cases hp : p.isPrefixOf (c :: rest)
    · exact (List.isPrefixOf_iff_prefix.mp hp).isInfix
    · simp only [hp, if_false] at h
      cases hr : findSub rest p with
      | none => rw [hr] at h; simp at h
      | some j =>
        have := ih p j hr
        exact List.infix_cons_iff.mpr (Or.inr this)

/-- C9 counterexample: on `/*a*/X/*b*/` the comment rewrite removes
the whole text — the greedy `[^\x00]+` spans from the first `/*` to
the last `*/` — instead of the `X` the claim's separate, non-greedy
removal would leave. -/
theorem C9_counterexample :
    stripComments (("/*a*/X/*b*/").data) = [] ∧
    stripComments (("/*a*/X/*b*/").data) ≠ ("X").data := by
  decide

/-- C9 amended — the comment rewrite is greedy, not non-greedy: text
with no `/*` at all is unchanged, and a single block comment is removed
cleanly, but a payload with two block comments loses everything from
the start of the first comment through the end of the last one,
including the non-comment text between them. -/
theorem C9_amended :
    (∀ l : List Char, ¬ (['/', '*'] <:+: l) → stripComments l = l) ∧
    stripComments (("A/*x*/B").data) = ("AB").data ∧
    stripComments (("A/*x*/M/*y*/B").data) = ("AB").data := by
  refine ⟨?_, by decide, by decide⟩
  intro l h
  unfold stripComments
  cases hfs : findSub l ['/', '*'] with
  | none => rfl
  | some i => exact absurd (findSub_some_isInfix l ['/', '*'] i hfs) h

/-- Witness for C9's amended claim: comment-free text is unchanged. -/
theorem C9_amended_witness : stripComments (("no comment here").data) = ("no comment here").data :=
  C9_amended.1 (("no comment here").data) (by decide)

/-- The synthetic on-demand feed payload of the end-to-end scenario. -/
def payloadC5 : String :=
  "callback(\x7bconfig:\x7bregions:[\x7bregion:\"us-east\",types:[\x7btiers:[\x7bname:\"m1.small\",prices:\x7bUSD:\"$0.044 per Hrs\"\x7d\x7d]\x7d]\x7d]\x7d\x7d)"

/-- The feed `payloadC5` repairs and parses to. -/
def feedC5 : SrcDoc ELC.OdRegion :=
  ⟨some ⟨some [⟨some "us-east", some [⟨some [⟨"m1.small", "$0.044 per Hrs"⟩]⟩]⟩]⟩⟩

/-- C5 — end-to-end: repairing the synthetic payload
`callback({config:{regions:[{region:"us-east",types:[{tiers:[{name:
"m1.small",prices:{USD:"$0.044 per Hrs"}}]}]}]}})` yields strict JSON,
it parses to a single-region feed, and the cache on-demand
normalization of that one feed yields exactly one region, named
`us-east-1` after resolution, holding exactly one offering of type
`m1.small` priced `0.044` (= 11/250). -/
theorem C5_end_to_end :
    load_repair payloadC5 =
      "\x7b\"config\":\x7b\"regions\":[\x7b\"region\":\"us-east\",\"types\":[\x7b\"tiers\":[\x7b\"name\":\"m1.small\",\"prices\":\x7b\"USD\":\"$0.044 per Hrs\"\x7d\x7d]\x7d]\x7d]\x7d\x7d" ∧
    load_data_elc_od payloadC5 = some feedC5 ∧
    (load_data_elc_od payloadC5).bind (fun d => ELC.get_ondemand_instances_prices [d]) =
      some ⟨"USD", "perhr", [⟨"us-east-1", [⟨"m1.small", some (11 / 250)⟩]⟩]⟩ := by
  have h : load_data_elc_od payloadC5 = some feedC5 := by decide
  refine ⟨by decide, h, ?_⟩
  rw [h, Option.some_bind]
  simp +decide [ELC.get_ondemand_instances_prices, ELC.odFeedStep, ELC.odRegionStep,
    ELC.odRegionOffers, feedC5, srcRegions, resolveRegion, JSON_NAME_TO_REGIONS_API,
    tblLookup, parse_price, stripToken, pyFloatDigits, isPriceChar, nePoint, digitsVal,
    fracVal, List.filter, List.takeWhile, List.dropWhile]
  norm_num

/-- A compute reserved feed (Linux) whose single region uses the
source token `us-east`, carrying one type with no `terms`. -/
def c1FeedA : String × SrcDoc EC2.ResRegion :=
  ("linux", ⟨some ⟨some [⟨some "us-east", some [⟨"m1.small", none⟩]⟩]⟩⟩)

/-- A compute reserved feed (RHEL) whose single region uses the
source token `us-east-1` — the same canonical region as `us-east`. -/
def c1FeedB : String × SrcDoc EC2.ResRegion :=
  ("rhel", ⟨some ⟨some [⟨some "us-east-1", some [⟨"m1.small", none⟩]⟩]⟩⟩)

/-- The offering `c1FeedA` contributes. -/
def c1OfferA : EC2.ResOffer := ⟨"m1.small", "linux", ec2InitNewPrices⟩

/-- The offering `c1FeedB` contributes. -/
def c1OfferB : EC2.ResOffer := ⟨"m1.small", "rhel", ec2InitNewPrices⟩

/-- C1 counterexample: the compute reserved normalizer keys its region
index by the *raw* source token, not the canonical id. Two reserved
feeds whose region tokens `us-east` and `us-east-1` both resolve to the
canonical `us-east-1` produce two separate `RegionPricing` entries, and
the one named `us-east-1` holds only the second feed's offering — not
the union the claim requires for every reserved call. -/
theorem C1_counterexample :
    resolveRegion ("us-east") = some ("us-east-1") ∧
    resolveRegion ("us-east-1") = some ("us-east-1") ∧
    EC2.get_reserved_instances_prices [c1FeedA, c1FeedB] =
      some ⟨"USD", [⟨"us-east", [c1OfferA]⟩, ⟨"us-east-1", [c1OfferB]⟩]⟩ ∧
    ([c1OfferB] : List EC2.ResOffer) ≠ [c1OfferA, c1OfferB] := by
  decide

/-- C1 amended — the accumulation asymmetry, keyed as implemented:
every reserved normalizer merges by the region key it actually uses
(the raw source token for the compute path, the resolved canonical id
for the cache path), so two reserved feeds sharing that key produce
exactly one `RegionPricing` holding the concatenation of both feeds'
offerings in feed order; two on-demand feeds sharing a region token
produce two separate `RegionPricing` entries with the same name. -/
theorem C1_amended :
    (∀ (os1 os2 tok : String) (its1 its2 : List EC2.ResIT)
      (l1 l2 : List EC2.ResOffer), tok ≠ "" →
      optMapM (EC2.resProcessIT os1) its1 = some l1 →
      optMapM (EC2.resProcessIT os2) its2 = some l2 →
      EC2.get_reserved_instances_prices
        [(os1, ⟨some ⟨some [⟨some tok, some its1⟩]⟩⟩),
         (os2, ⟨some ⟨some [⟨some tok, some its2⟩]⟩⟩)] =
        some ⟨"USD", [⟨tok, l1 ++ l2⟩]⟩) ∧
    (∀ (c1 c2 : ELC.ResCtx) (t1 t2 name : String) (ts1 ts2 : List ELC.ResTier)
      (l1 l2 : List ELC.ResOffer), t1 ≠ "" → t2 ≠ "" →
      resolveRegion t1 = some name → resolveRegion t2 = some name →
      optMapM (ELC.resTierOffer c1) ts1 = some l1 →
      optMapM (ELC.resTierOffer c2) ts2 = some l2 →
      ELC.get_reserved_instances_prices
        [(c1, ⟨some ⟨some [⟨some t1, some [⟨some ts1⟩]⟩]⟩⟩),
         (c2, ⟨some ⟨some [⟨some t2, some [⟨some ts2⟩]⟩]⟩⟩)] =
        some ⟨"USD", [⟨name, l1 ++ l2⟩]⟩) ∧
    (∀ (tok : String) (its1 its2 : List EC2.OdIT), tok ≠ "" →
      EC2.get_ondemand_instances_prices
        [⟨some ⟨some [⟨some tok, some its1⟩]⟩⟩, ⟨some ⟨some [⟨some tok, some its2⟩]⟩⟩] =
        ⟨"USD", "perhr", [⟨tok, EC2.odRegionOffers its1⟩, ⟨tok, EC2.odRegionOffers its2⟩]⟩) := by
  refine ⟨?_, ?_, ?_⟩
  · intro os1 os2 tok its1 its2 l1 l2 htok h1 h2
    simp [EC2.get_reserved_instances_prices, EC2.resFeedStep, srcRegions,
      List.foldlM_cons, List.foldlM_nil, EC2.resRegionStep, htok, h1, h2,
      mergeRegion, regionNames, extendFirst]
  · intro c1 c2 t1 t2 name ts1 ts2 l1 l2 ht1 ht2 hr1 hr2 h1 h2
    simp [ELC.get_reserved_instances_prices, ELC.resFeedStep, srcRegions,
      List.foldlM_cons, List.foldlM_nil, ELC.resRegionStep, ht1, ht2, hr1, hr2, h1, h2,
      mergeRegion, regionNames, extendFirst]
  · intro tok its1 its2 htok
    simp [EC2.get_ondemand_instances_prices, EC2.odFeedStep, srcRegions,
      List.foldl_cons, EC2.odRegionStep, htok]

/-- Witness for C1's amended claim: two on-demand feeds for the same
region token yield two entries with that name. -/
theorem C1_amended_witness :
    EC2.get_ondemand_instances_prices
      [⟨some ⟨some [⟨some "us-east", some []⟩]⟩⟩, ⟨some ⟨some [⟨some "us-east", some []⟩]⟩⟩] =
      ⟨"USD", "perhr", [⟨"us-east", EC2.odRegionOffers []⟩, ⟨"us-east", EC2.odRegionOffers []⟩]⟩ :=
  C1_amended.2.2 ("us-east") [] [] (by decide)

/-- An on-demand feed of the compute service naming region `us-east`
with no instance types. -/
def c4Feed : SrcDoc EC2.OdRegion := ⟨some ⟨some [⟨some "us-east", some []⟩]⟩⟩

/-- C4 counterexample: two on-demand feeds naming the same region
produce a canonical document whose `regions` sequence repeats the name
`us-east` — region names are *not* pairwise distinct for every
normalizer operation. -/
theorem C4_counterexample :
    EC2.get_ondemand_instances_prices [c4Feed, c4Feed] =
      ⟨"USD", "perhr", [⟨"us-east", []⟩, ⟨"us-east", []⟩]⟩ ∧
    ¬ (regionNames ([⟨"us-east", ([] : List EC2.OdOffer)⟩, ⟨"us-east", []⟩])).Nodup := by
  decide

lemma ec2_resRegionStep_nodup (os : String) (acc acc' : List (RegionP EC2.ResOffer))
    (r : EC2.ResRegion) (h : EC2.resRegionStep os acc r = some acc')
    (hn : (regionNames acc).Nodup) : (regionNames acc').Nodup := by
  obtain ⟨reg, its⟩ := r
  cases reg with
  | none =>
    simp [EC2.resRegionStep] at h
    exact h ▸ hn
  | some tok =>
    by_cases htok : tok = ""
    · simp [EC2.resRegionStep, htok] at h
      exact h ▸ hn
    · simp only [EC2.resRegionStep, if_neg htok] at h
      cases hm : optMapM (EC2.resProcessIT os) (its.getD []) with
      | none => rw [hm] at h; simp at h
      | some offs =>
        rw [hm] at h
        simp only [Option.map_some', Option.some.injEq] at h
        exact h ▸ mergeRegion_nodup acc tok offs hn

lemma elc_resRegionStep_nodup (ctx : ELC.ResCtx) (acc acc' : List (RegionP ELC.ResOffer))
    (r : ELC.ResRegion) (h : ELC.resRegionStep ctx acc r = some acc')
    (hn : (regionNames acc).Nodup) : (regionNames acc').Nodup := by
  obtain ⟨reg, its⟩ := r
  cases reg with
  | none =>
    simp [ELC.resRegionStep] at h
    exact h ▸ hn
  | some tok =>
    by_cases htok : tok = ""
    · simp [ELC.resRegionStep, htok] at h
      exact h ▸ hn
    · simp only [ELC.resRegionStep, if_neg htok] at h
      cases hres : resolveRegion tok with
      | none => rw [hres] at h; simp at h
      | some name =>
        rw [hres] at h
        simp only [Option.some_bind] at h
        cases hm : optMapM (ELC.resTierOffer ctx) ((its.getD []).flatMap
            (fun it => it.tiers.getD [])) with
        | none => rw [hm] at h; simp at h
        | some offs =>
          rw [hm] at h
          simp only [Option.map_some', Option.some.injEq] at h
          exact h ▸ mergeRegion_nodup acc name offs hn

/-- C4 amended — within every canonical *reserved* document the
`RegionPricing.region` values are pairwise distinct, and offerings
arriving for an already-present region are appended to that region's
existing `instanceTypes` sequence — the entry keeps its place and its
earlier offerings, nothing is overwritten; the on-demand documents,
by contrast, may repeat a region name (one fresh entry per feed). -/
theorem C4_amended :
    (∀ (feeds : List (String × SrcDoc EC2.ResRegion)) (doc : EC2.ResDoc),
      EC2.get_reserved_instances_prices feeds = some doc → (regionNames doc.regions).Nodup) ∧
    (∀ (feeds : List (ELC.ResCtx × SrcDoc ELC.ResRegion)) (doc : ELC.ResDoc),
      ELC.get_reserved_instances_prices feeds = some doc → (regionNames doc.regions).Nodup) ∧
    (∀ (α : Type) (acc : List (RegionP α)) (name : String) (offs : List α) (e : RegionP α),
      regFind acc name = some e →
      regionNames (mergeRegion acc name offs) = regionNames acc ∧
      regFind (mergeRegion acc name offs) name = some ⟨name, e.instanceTypes ++ offs⟩) := by
  refine ⟨?_, ?_, ?_⟩
  · intro feeds doc h
    unfold EC2.get_reserved_instances_prices at h
    cases hf : feeds.foldlM EC2.resFeedStep [] with
    | none => rw [hf] at h; simp at h
    | some regs =>
      rw [hf] at h
      simp only [Option.map_some'] at h
      cases h
      refine foldlM_preserve (fun regs => (regionNames regs).Nodup) EC2.resFeedStep
        ?_ feeds [] regs hf (by simp [regionNames])
      intro a b a' hstep ha
      exact foldlM_preserve _ (EC2.resRegionStep b.1)
        (fun x r x' hx hxn => ec2_resRegionStep_nodup b.1 x x' r hx hxn)
        (srcRegions b.2) a a' hstep ha
  · intro feeds doc h
    unfold ELC.get_reserved_instances_prices at h
    cases hf : feeds.foldlM ELC.resFeedStep [] with
    | none => rw [hf] at h; simp at h
    | some regs =>
      rw [hf] at h
      simp only [Option.map_some'] at h
      cases h
      refine foldlM_preserve (fun regs => (regionNames regs).Nodup) ELC.resFeedStep
        ?_ feeds [] regs hf (by simp [regionNames])
      intro a b a' hstep ha
      exact foldlM_preserve _ (ELC.resRegionStep b.1)
        (fun x r x' hx hxn => elc_resRegionStep_nodup b.1 x x' r hx hxn)
        (srcRegions b.2) a a' hstep ha
  · intro α acc name offs e h
    have hpred := List.find?_some h
    have hmem : e ∈ acc := List.mem_of_find?_eq_some h
    have hename : e.region = name := by simpa using hpred
    have hnm : name ∈ regionNames acc := by
      rw [← hename]
      exact List.mem_map_of_mem RegionP.region hmem
    constructor
    · exact mergeRegion_names_of_mem offs hnm
    · rw [mergeRegion, if_pos hnm]
      exact extendFirst_find name offs acc e h

/-- Witness for C4's amended claim: appending to a present region keeps
the name list and extends that entry's offerings. -/
theorem C4_amended_witness :
    regionNames (mergeRegion [⟨"us-east-1", ["a"]⟩] ("us-east-1") ["b"]) =
      regionNames [(⟨"us-east-1", ["a"]⟩ : RegionP String)] ∧
    regFind (mergeRegion [⟨"us-east-1", ["a"]⟩] ("us-east-1") ["b"]) ("us-east-1") =
      some ⟨"us-east-1", ["a"] ++ ["b"]⟩ :=
  C4_amended.2.2 String [⟨"us-east-1", ["a"]⟩] ("us-east-1") ["b"] ⟨"us-east-1", ["a"]⟩
    (by decide)

end AwsPricing
